import Mathlib

/-!
Verification development for the jobTree core: the job store recovery sweep
(src/jobTree/jobStores/abstractJobStore.py) and the worker execution loop
(src/jobTree/worker.py), shallowly embedded in Lean.

Stack representation: Python keeps the successor stack as a list whose LAST
element is the top group (stack[-1] reads it, stack.pop() removes it).  The
embedding keeps the same orientation; loops that repeatedly inspect and pop
the top are implemented through helpers that structurally recurse over the
reversed list and are wrapped back with List.reverse.

The Job class itself (src/jobTree/job.py) is not among the provided source
files; its field surface is modelled from the spec, section 3, and from the
attribute accesses performed by worker.py and abstractJobStore.py.  worker.py
line 312 unpacks a stack-group element as the 4-tuple
(jobStoreID, memory, cpu, predecessorID), while abstractJobStore.py line 307
iterates a stack group and passes each element directly to exists, treating
it as a bare jobStoreID.  The record below is therefore polymorphic in the
stack-element type: the recovery-sweep embedding instantiates it with String
(bare IDs, as _clean reads them) and the worker embedding with SuccessorEntry
(4-tuples, as the chain loop reads them).
-/

namespace JobTree

/-- A stack-group element as the worker's chain loop reads it
(worker.py line 312: jobStoreID, memory, cpu, predecessorID = jobs[0]). -/
structure SuccessorEntry where
  jobStoreID : String
  memory : Nat
  cpu : Nat
  predecessorID : Option String
deriving DecidableEq, Repr

/-- Job record.  Fields per spec section 3 and the attribute accesses in
worker.py and abstractJobStore.py; `α` is the stack-element type (see the
file comment). -/
structure Job (α : Type) where
  jobStoreID : String
  command : Option String
  memory : Nat
  cpu : Nat
  updateID : String
  predecessorNumber : Nat
  predecessorsFinished : List String
  stack : List (List α)
  jobsToDelete : List String
  logJobStoreFileID : Option String
  remainingRetryCount : Nat
deriving DecidableEq, Repr

/-- The jobs currently persisted by a store, in enumeration order
(the view that jobs() returns). -/
abbrev StoreJobs (α : Type) := List (Job α)

/-- exists(jobStoreID) over a persisted-record list: true iff some record
carries that ID. -/
def existsIn {α : Type} (s : StoreJobs α) (i : String) : Bool :=
  s.any (fun j => j.jobStoreID = i)

/-- delete(jobStoreID): removes every record with the given ID
(idempotent; silently succeeds when absent). -/
def deleteId {α : Type} (s : StoreJobs α) (i : String) : StoreJobs α :=
  s.filter (fun j => j.jobStoreID ≠ i)

/-- load(jobStoreID): the persisted record with the given ID, if any. -/
def loadId {α : Type} (s : StoreJobs α) (i : String) : Option (Job α) :=
  s.find? (fun j => j.jobStoreID = i)

/-- update(job): atomically replaces the persisted state of
job.jobStoreID. -/
def updateJob {α : Type} (s : StoreJobs α) (j : Job α) : StoreJobs α :=
  s.map (fun r => if r.jobStoreID = j.jobStoreID then j else r)

/-! ## The recovery sweep (AbstractJobStore._clean, abstractJobStore.py 276-322)

The sweep instantiates the stack-element type with String, because _clean's
own code (line 307) treats the elements of a stack group as jobStoreIDs that
can be passed to exists. -/

/-- Phase 1 of _clean (lines 283-286): collate the updateIDs listed in any
record's jobsToDelete. -/
def collateJobsToDelete (s : StoreJobs String) : List String :=
  s.foldl (fun acc j => acc ++ j.jobsToDelete) []

/-- Phase 2 of _clean (lines 289-292): when the collated set is non-empty,
walk the enumeration and delete every record whose updateID is in the set.
The enumeration is the snapshot taken at loop entry; deletion mutates the
live store, modelled by folding deleteId over that snapshot. -/
def deletionPhase (s : StoreJobs String) : StoreJobs String :=
  let jobsToDelete := collateJobsToDelete s
  if jobsToDelete.length > 0 then
    s.foldl (fun st j => if j.updateID ∈ jobsToDelete then deleteId st j.jobStoreID else st) s
  else s

/-- Number of delete calls phase 2 issues: one per enumerated record whose
updateID is in the collated set. -/
def deletionPhaseDeletes (s : StoreJobs String) : Nat :=
  let jobsToDelete := collateJobsToDelete s
  if jobsToDelete.length > 0 then
    (s.filter (fun j => decide (j.updateID ∈ jobsToDelete))).length
  else 0

/-- The while loop of _clean lines 306-313 over the reversed stack (head =
top group): filter the top group to the elements that still exist; a
non-empty filtered group replaces the top (flagging a change) only when it
shrank, and the loop stops; an empty filtered group pops the top and the
loop repeats.  Note the source flags a change only on the shrink-and-replace
branch, not on pops. -/
def fixStackRev (ex : String → Bool) : List (List String) → List (List String) × Bool
  | [] => ([], false)
  | g :: rest =>
    let jobs := g.filter ex
    if jobs.length > 0 then
      if jobs.length < g.length then (jobs :: rest, true) else (g :: rest, false)
    else fixStackRev ex rest

/-- The while loop of _clean lines 306-313, in source orientation (top group
last). -/
def fixStack (ex : String → Bool) (stack : List (List String)) :
    List (List String) × Bool :=
  let p := fixStackRev ex stack.reverse
  (p.1.reverse, p.2)

/-- The per-record body of _clean's phase 3 (lines 295-319): clear a
non-empty jobsToDelete, run the stack-fixing loop, clear a set
logJobStoreFileID (Job.clearLogFile deletes the referenced log file, which
lives in the per-job file namespace outside this model, and clears the
field), and report whether the record was flagged as changed. -/
def cleanJob (ex : String → Bool) (j : Job String) : Job String × Bool :=
  let (j, changed) :=
    if j.jobsToDelete.length ≠ 0 then ({ j with jobsToDelete := [] }, true)
    else (j, false)
  let p := fixStack ex j.stack
  let j := { j with stack := p.1 }
  let changed := changed || p.2
  if j.logJobStoreFileID ≠ none then ({ j with logJobStoreFileID := none }, true)
  else (j, changed)

/-- Phase 3 of _clean (lines 295-322): for each record of the post-deletion
enumeration, run cleanJob and persist the result via update only when the
change flag was set (a record whose only in-memory change was unflagged pops
keeps its old persisted state).  exists is queried against the live store;
phase-3 updates never change the set of persisted IDs, so membership in the
post-deletion store is used throughout. -/
def cleanupPhase (s : StoreJobs String) : StoreJobs String :=
  s.map (fun j =>
    let p := cleanJob (existsIn s) j
    if p.2 then p.1 else j)

/-- Number of update calls phase 3 issues. -/
def cleanupPhaseUpdates (s : StoreJobs String) : Nat :=
  (s.filter (fun j => (cleanJob (existsIn s) j).2)).length

/-- started(): the store contains existing jobs (abstractJobStore.py 50-54). -/
def started (s : StoreJobs String) : Bool :=
  !s.isEmpty

/-- AbstractJobStore._clean: the store state after the sweep, together with
the number of delete calls and the number of update calls it performed. -/
def clean (s : StoreJobs String) : StoreJobs String × Nat × Nat :=
  if started s then
    let s2 := deletionPhase s
    (cleanupPhase s2, deletionPhaseDeletes s, cleanupPhaseUpdates s2)
  else (s, 0, 0)

/-! ## The worker execution loop (worker.py main, lines 99-429)

The worker instantiates the stack-element type with SuccessorEntry, because
the chain loop (line 312) unpacks a group element as a 4-tuple.  The store's
exists is applied directly to a group element at line 234; the concrete
exists implementations are not among the provided sources, so existence
checks on entries are modelled from the spec (section 4.6: the check asks
whether the successor the entry refers to is still persisted) and passed in
as a predicate on entries. -/

/-- The pre-execution stack popping of worker.py lines 231-239, over the
reversed stack (head = top group): while the first successor of the top
group is absent, pop the group; stop at the first top group whose first
successor exists.  jobs[0] on an empty group raises IndexError, modelled as
none. -/
def popFinishedRev (ex : SuccessorEntry → Bool) :
    List (List SuccessorEntry) → Option (List (List SuccessorEntry))
  | [] => some []
  | g :: rest =>
    match g.head? with
    | none => none
    | some e => if ex e then some (g :: rest) else popFinishedRev ex rest

/-- The pre-execution cleanup of the stack, worker.py lines 230-239: the
popping loop runs only when the loaded job's command is None. -/
def workerPreCleanStack (command : Option String) (ex : SuccessorEntry → Bool)
    (stack : List (List SuccessorEntry)) : Option (List (List SuccessorEntry)) :=
  if command = none then (popFinishedRev ex stack.reverse).map List.reverse
  else some stack

/-- Outcome of the post-execution checks of one chain-loop iteration
(worker.py lines 292-321): halt the loop, run the sole successor entry, or
raise out of the loop into the worker's failure path.  Two raising cases
occur in the source: on a top group of 2 or more successors, the branch at
lines 305-308 formats its log message with len(tasks)-1 where the name
tasks is bound nowhere in worker.py, so a NameError escapes before the
break statement runs; and jobs[0] on an empty top group is an
IndexError. -/
inductive ChainDecision where
  | halt
  | run (e : SuccessorEntry)
  | raiseNameError
  | raiseIndexError
deriving DecidableEq, Repr

/-- The post-execution checks of worker.py lines 292-321, in source order:
break when the wall-time budget is exceeded; break when the stack is empty;
on a top group of 2 or more successors, raise NameError out of the loop
(line 307 evaluates len(tasks) with tasks undefined, before the break at
line 308 is reached); break when the sole successor needs more memory or
more cpu than the current job, or has a predecessorID; otherwise chain
into that successor. -/
def chainCheck (timeExpired : Bool) (j : Job SuccessorEntry) : ChainDecision :=
  if timeExpired then .halt
  else
    match j.stack.getLast? with
    | none => .halt
    | some jobs =>
      if jobs.length ≥ 2 then .raiseNameError
      else
        match jobs.head? with
        | none => .raiseIndexError
        | some e =>
          if e.memory > j.memory then .halt
          else if e.cpu > j.cpu then .halt
          else if e.predecessorID ≠ none then .halt
          else .run e

/-- State threaded through the worker: the in-memory job object, the store's
persisted records, and the jobsToDelete attribute that worker.py line 350
assigns onto the jobStore handle object itself (a plain Python attribute
assignment onto the store instance; absent until that line runs). -/
structure WorkerState where
  job : Job SuccessorEntry
  store : StoreJobs SuccessorEntry
  storeHandleJobsToDelete : Option (List String)
deriving DecidableEq, Repr

/-- One chain step, worker.py lines 332-352: pop the successor group, load
the successor, assert that its resources match the entry and that it is an
unblocked single-predecessor job (the source spells the asserted attributes
predeccesors and predeccesorNumber; the Job field surface is modelled from
spec section 3, where they are predecessorsFinished and predecessorNumber),
transplant its command and stack into the current job, then assign the
delete-intent list onto the jobStore handle (line 350 writes
jobStore.jobsToDelete, not job.jobsToDelete), update the current job and
delete the successor.  A failed load or assert is an exception, modelled as
none. -/
def chainInto (ws : WorkerState) (e : SuccessorEntry) : Option WorkerState :=
  let j := { ws.job with stack := ws.job.stack.dropLast }
  match loadId ws.store e.jobStoreID with
  | none => none
  | some s =>
    if s.memory ≠ e.memory then none
    else if s.cpu ≠ e.cpu then none
    else if s.predecessorsFinished ≠ [] then none
    else if s.predecessorNumber ≠ 1 then none
    else
      let j := { j with command := s.command, stack := j.stack ++ s.stack }
      if ¬ (j.memory ≥ s.memory) then none
      else if ¬ (j.cpu ≥ s.cpu) then none
      else some { job := j
                  store := deleteId (updateJob ws.store j) s.jobStoreID
                  storeHandleJobsToDelete := some [s.jobStoreID] }

/-- The chain loop of worker.py lines 259-354.  Executing a payload is done
by Target._execute, which is not among the provided sources; it is
Modelled from the spec: running a job's payload consumes the command
(section 3 invariant 3 with the COMPLETE transition of section 4.6) and may
rewrite the job through the spawn protocol of section 4.5, so it is passed
in as a function from the command and the current job to the new job.
timeExpired gives, per iteration, whether the elapsed wall time exceeds the
configured job_time.  Fuel bounds the iteration count; exceptions
(assertion failures, missing successors, the NameError of the
two-or-more-successors branch, IndexError) yield none. -/
def workerLoop (execPayload : String → Job SuccessorEntry → Job SuccessorEntry)
    (timeExpired : Nat → Bool) :
    Nat → Nat → WorkerState → Option WorkerState
  | 0, _, _ => none
  | fuel + 1, it, ws =>
    match ws.job.command with
    | none => if ws.job.stack = [] then some ws else none
    | some c =>
      let ws := { ws with job := execPayload c ws.job }
      match chainCheck (timeExpired it) ws.job with
      | .halt => some ws
      | .raiseNameError => none
      | .raiseIndexError => none
      | .run e =>
        match chainInto ws e with
        | none => none
        | some ws2 => workerLoop execPayload timeExpired fuel (it + 1) ws2

/-- The post-loop completion step of worker.py lines 426-429: on a normal
(not workerFailed) exit, when the job's command is absent and its stack is
empty, delete the job from the store. -/
def workerFinish (ws : WorkerState) : StoreJobs SuccessorEntry :=
  if ws.job.command = none ∧ ws.job.stack = [] then
    deleteId ws.store ws.job.jobStoreID
  else ws.store

/-- The worker's normal path over one job, worker.py main: load the target
record, run the pre-execution cleanup (stack popping and clearing of a
leftover logJobStoreFileID), run the chain loop, and finish.  Existence of
a stack entry's successor is checked by its jobStoreID (Modelled from the
spec, section 4.6; the concrete exists implementations are not among the
provided sources).  none models a worker whose try block raised. -/
def workerMain (execPayload : String → Job SuccessorEntry → Job SuccessorEntry)
    (timeExpired : Nat → Bool) (fuel : Nat)
    (store : StoreJobs SuccessorEntry) (jobStoreID : String) :
    Option (StoreJobs SuccessorEntry) :=
  match loadId store jobStoreID with
  | none => none
  | some job =>
    match workerPreCleanStack job.command (fun e => existsIn store e.jobStoreID) job.stack with
    | none => none
    | some st =>
      let job := { job with stack := st }
      let job :=
        if job.logJobStoreFileID ≠ none then { job with logJobStoreFileID := none } else job
      match workerLoop execPayload timeExpired fuel 0 ⟨job, store, none⟩ with
      | none => none
      | some ws => some (workerFinish ws)

/-! ## The worker failure path (worker.py lines 381-386 and 417-421) -/

/-- truncateFile (worker.py lines 40-52): a file bigger than 50000 bytes is
rewritten to hold only its last 50000 bytes. -/
def truncateFile (content : List Nat) : List Nat :=
  if content.length > 50000 then content.drop (content.length - 50000) else content

/-- Modelled from the spec: Job.setupJobAfterFailure (the Job class is not
among the provided sources); section 4.7 decrements the retry budget,
clamped at zero. -/
def setupJobAfterFailure (j : Job SuccessorEntry) : Job SuccessorEntry :=
  { j with remainingRetryCount := j.remainingRetryCount - 1 }

/-- The attributes the AbstractJobStore class defines
(abstractJobStore.py lines 19-322): every method and class attribute of the
class body.  The concrete subclasses are not among the provided sources;
per the spec, section 9, the method named store does not exist anywhere and
update is the persist operation. -/
def abstractJobStoreAttributes : List String :=
  [ "config", "started", "loadRootJob", "jobs", "create", "exists", "load",
    "update", "delete", "loadJobsInStore", "writeFile", "updateFile",
    "readFile", "deleteFile", "writeFileStream", "updateFileStream",
    "getEmptyFileStoreID", "readFileStream", "sharedFileNameRegex",
    "writeSharedFileStream", "readSharedFileStream", "writeStatsAndLogging",
    "readStatsAndLogging", "deleteJobStore" ]

/-- Exceptions the modelled worker teardown can raise. -/
inductive PyError where
  | attributeError (attr : String)
  | noSuchJob (i : String)
deriving DecidableEq, Repr

/-- The worker's failure handling, worker.py lines 381-386 (the except
block: reload the job by the current jobStoreID binding and annotate it)
followed by lines 417-421 (teardown with workerFailed set: truncate the
captured log, upload it and set the job's logJobStoreFileID — Job.setLogFile
is Modelled from the spec, section 4.6, as the upload of the log as a new
file whose ID is recorded in the field — then persist the job by calling
the jobStore method named store).  Looking up a method that the store does
not define raises AttributeError. -/
def workerFailurePath (store : StoreJobs SuccessorEntry) (jobStoreID : String)
    (workerLog : List Nat) (newLogFileID : String) :
    Except PyError (StoreJobs SuccessorEntry × Job SuccessorEntry × List Nat) :=
  match loadId store jobStoreID with
  | none => Except.error (.noSuchJob jobStoreID)
  | some j =>
    let j := setupJobAfterFailure j
    let uploadedLog := truncateFile workerLog
    let j := { j with logJobStoreFileID := some newLogFileID }
    if abstractJobStoreAttributes.contains "store" then
      Except.ok (updateJob store j, j, uploadedLog)
    else Except.error (.attributeError "store")

/-- Exit code of the worker process: 0 when main returned, nonzero when an
exception escaped main. -/
def processExitCode {ε α : Type} : Except ε α → Nat
  | .ok _ => 0
  | .error _ => 1

/-! ## Shared-file-name validation (abstractJobStore.py lines 211 and 270-272) -/

/-- Membership in the character class of sharedFileNameRegex,
a-z A-Z 0-9 dot underscore hyphen. -/
def isSharedFileNameChar (c : Char) : Bool :=
  (decide ('a' ≤ c) && decide (c ≤ 'z')) ||
  (decide ('A' ≤ c) && decide (c ≤ 'Z')) ||
  (decide ('0' ≤ c) && decide (c ≤ '9')) ||
  c == '.' || c == '_' || c == '-'

/-- _validateSharedFileName: bool(re.match(anchored class pattern, name)).
Under CPython regex semantics the dollar anchor matches at the end of the
string or just before a newline that ends the string; a newline is not in
the class, so the pattern matches exactly when the name, after removing one
string-final newline if present, is a non-empty run of class characters. -/
def validateSharedFileName (name : List Char) : Bool :=
  let body := if name.getLast? = some '\n' then name.dropLast else name
  !body.isEmpty && body.all isSharedFileNameChar

/-! ## Store construction and the configuration blob
(AbstractJobStore.__init__ and config, abstractJobStore.py lines 25-47)

The configuration is an xml.etree element; the XML library is not part of
this repository, so it is Modelled from the spec, section 6: an element
with a tag, attributes and child elements.  A written element is stored as
its markup token sequence (start tags carrying the attributes, and end
tags); ET.parse reads that sequence back into an element. -/

/-- An XML element: tag, attributes, children (Modelled from the spec,
section 6). -/
inductive XmlElement where
  | node (tag : String) (attrib : List (String × String)) (children : List XmlElement)

/-- Markup tokens of a serialized element tree. -/
inductive XmlToken where
  | startTag (tag : String) (attrib : List (String × String))
  | endTag
deriving DecidableEq, Repr

mutual

/-- ET.ElementTree(config).write: the markup of an element. -/
def serializeXml : XmlElement → List XmlToken
  | .node t a cs => XmlToken.startTag t a :: serializeXmlList cs ++ [XmlToken.endTag]

/-- Markup of a sequence of sibling elements. -/
def serializeXmlList : List XmlElement → List XmlToken
  | [] => []
  | e :: es => serializeXml e ++ serializeXmlList es

end

mutual

/-- ET.parse, one element: consume a start tag, the children, and the
matching end tag; fuel bounds the recursion depth. -/
def parseXml : Nat → List XmlToken → Option (XmlElement × List XmlToken)
  | 0, _ => none
  | fuel + 1, XmlToken.startTag t a :: rest =>
    match parseXmlList fuel rest with
    | some (cs, XmlToken.endTag :: rest2) => some (XmlElement.node t a cs, rest2)
    | _ => none
  | _ + 1, _ => none

/-- ET.parse, a sibling sequence: elements until the next token is not a
start tag. -/
def parseXmlList : Nat → List XmlToken → Option (List XmlElement × List XmlToken)
  | 0, _ => none
  | fuel + 1, toks =>
    match toks with
    | XmlToken.startTag _ _ :: _ =>
      match parseXml fuel toks with
      | none => none
      | some (e, rest) =>
        match parseXmlList fuel rest with
        | none => none
        | some (es, rest2) => some (e :: es, rest2)
    | _ => some ([], toks)

end

/-- The backing storage a job store is bound to: the shared-file namespace
(name to file content) and the persisted job records. -/
structure BackingStore where
  sharedFiles : List (String × List XmlToken)
  jobRecords : StoreJobs String
deriving DecidableEq, Repr

/-- readSharedFileStream content of a named shared file. -/
def lookupShared (b : BackingStore) (name : String) : Option (List XmlToken) :=
  (b.sharedFiles.find? (fun p => p.1 = name)).map Prod.snd

/-- writeSharedFileStream: atomically replace the named shared file. -/
def writeShared (b : BackingStore) (name : String) (content : List XmlToken) :
    BackingStore :=
  { b with sharedFiles := (name, content) :: b.sharedFiles.filter (fun p => p.1 ≠ name) }

/-- The recovery sweep applied to the backing storage: _clean touches only
job records, never shared files. -/
def cleanBacking (b : BackingStore) : BackingStore :=
  { b with jobRecords := (clean b.jobRecords).1 }

/-- A constructed store instance: the backing storage it left behind and
the private element that the config property returns. -/
structure StoreHandle where
  backing : BackingStore
  config : XmlElement

/-- AbstractJobStore.__init__ (lines 25-43): with a configuration element,
write it to the shared file named config.xml and keep it as the private
config; with none, read and parse that shared file.  Either way the
recovery sweep _clean runs afterwards.  A failed shared-file read or parse
is an escaping exception, modelled as none. -/
def initJobStore (b : BackingStore) (config : Option XmlElement) :
    Option StoreHandle :=
  match config with
  | some c =>
    let b := writeShared b "config.xml" (serializeXml c)
    some { backing := cleanBacking b, config := c }
  | none =>
    match lookupShared b "config.xml" with
    | none => none
    | some toks =>
      match parseXml (toks.length + 1) toks with
      | some (e, []) => some { backing := cleanBacking b, config := e }
      | _ => none

/-! ## Concrete fixtures

A three-job chain as in spec section 8 scenario 6: singleton successor
groups, equal resources, predecessorNumber 1, no predecessorID. -/

/-- Successor entry referring to the second chain job. -/
def exE2 : SuccessorEntry := ⟨"j2", 5, 5, none⟩

/-- Successor entry referring to the third chain job. -/
def exE3 : SuccessorEntry := ⟨"j3", 5, 5, none⟩

/-- First chain job: command present, stack holding the singleton group of
the second job. -/
def exJ1 : Job SuccessorEntry := ⟨"j1", some "c1", 5, 5, "u1", 0, [], [[exE2]], [], none, 1⟩

/-- Second chain job. -/
def exJ2 : Job SuccessorEntry := ⟨"j2", some "c2", 5, 5, "u2", 1, [], [[exE3]], [], none, 1⟩

/-- Third chain job: empty stack. -/
def exJ3 : Job SuccessorEntry := ⟨"j3", some "c3", 5, 5, "u3", 1, [], [], [], none, 1⟩

/-- A job whose top stack group holds two successors, reaching the
parallel-dispatch branch of the post-execution checks. -/
def exJ2Kids : Job SuccessorEntry :=
  ⟨"jp", some "cp", 5, 5, "up", 0, [], [[exE2, exE3]], [], none, 1⟩

/-- A payload model for the chain scenario, Modelled from the spec,
sections 3 and 4.6: running the payload consumes the command and these
payloads spawn no successors. -/
def consumeCommand : String → Job SuccessorEntry → Job SuccessorEntry :=
  fun _ j => { j with command := none }

/-- Store-world record carrying a delete intent for updateID x
(the spawn-protocol crash state of spec section 4.5). -/
def exSA : Job String := ⟨"a", some "cmd", 0, 0, "keep", 0, [], [], ["x"], none, 0⟩

/-- Store-world record whose updateID is the orphan updateID x. -/
def exSB : Job String := ⟨"b", some "cmd", 0, 0, "x", 1, [], [], [], none, 0⟩

/-- Store-world record whose top stack group holds three successor IDs,
as in spec section 8 scenario 5. -/
def exR : Job String := ⟨"r", some "cmd", 1, 1, "ur", 0, [], [["id1", "id2", "id3"]], [], none, 1⟩

/-- Store-world record giving existence to exactly one of the three IDs in
the top group of exR. -/
def exW : Job String := ⟨"id1", some "cmd", 1, 1, "uw", 1, [], [], [], none, 1⟩

/-- A concrete configuration element with attributes and a child, per spec
section 6. -/
def cfgExample : XmlElement :=
  XmlElement.node "config" [("try_count", "2"), ("job_time", "30")]
    [XmlElement.node "extra" [] []]

end JobTree

namespace JobTree

/-! ## Helper lemmas -/

/-- The pre-execution popping loop, characterized over the reversed stack:
it splits the list into a popped prefix whose groups all have an absent
first successor and a kept suffix whose first group, if any, has a present
first successor. -/
theorem popFinishedRev_spec (ex : SuccessorEntry → Bool) :
    ∀ (l : List (List SuccessorEntry)), (∀ g ∈ l, g ≠ []) →
      ∃ poppedRev keptRev,
        popFinishedRev ex l = some keptRev ∧
        l = poppedRev ++ keptRev ∧
        (∀ g ∈ poppedRev, ∀ e, g.head? = some e → ex e = false) ∧
        (∀ g e, keptRev.head? = some g → g.head? = some e → ex e = true) := by
  intro l
  induction l with
  | nil =>
    intro _
    exact ⟨[], [], rfl, rfl, by simp, by simp⟩
  | cons g rest ih =>
    intro h
    have hg : g ≠ [] := h g (by simp)
    obtain ⟨e0, t, he⟩ : ∃ e0 t, g = e0 :: t := by
      cases g with
      | nil => exact absurd rfl hg
      | cons a b => exact ⟨a, b, rfl⟩
    subst he
    by_cases hex : ex e0 = true
    · refine ⟨[], (e0 :: t) :: rest, ?_, by simp, by simp, ?_⟩
      · simp [popFinishedRev, hex]
      · intro g' e' hg' he'
        simp at hg' he'
        subst hg'
        simp at he'
        subst he'
        exact hex
    · have hex' : ex e0 = false := by
        cases hb : ex e0 with
        | true => exact absurd hb hex
        | false => rfl
      obtain ⟨pr, kr, h1, h2, h3, h4⟩ := ih (fun g' hg' => h g' (by simp [hg']))
      refine ⟨(e0 :: t) :: pr, kr, ?_, by simp [h2], ?_, h4⟩
      · simp [popFinishedRev, hex']
        exact h1
      · intro g' hg' e' he'
        rcases List.mem_cons.mp hg' with hcase | hcase
        · subst hcase
          simp at he'
          subst he'
          exact hex'
        · exact h3 g' hcase e' he'

/-! ## Claim C1 -/

/-- C1: the chain iteration is claimed to checkpoint by setting the job
record's jobsToDelete to the successor's jobStoreID before update and
delete.  Evaluating the chain step of worker.py lines 332-352 at a concrete
chain state shows the code instead assigns the intent list onto the
jobStore handle object: after the step, the handle attribute holds the
successor ID, the successor was deleted, but the persisted record of the
chained job carries an unchanged, empty jobsToDelete. -/
theorem worker_chain_intent_not_persisted :
    (chainInto ⟨exJ1, [exJ1, exJ2, exJ3], none⟩ exE2).map (fun ws =>
        (ws.storeHandleJobsToDelete,
         (loadId ws.store "j1").map Job.jobsToDelete,
         existsIn ws.store "j2")) =
      some (some ["j2"], some [], false) ∧
    (some ([] : List String) ≠ some ["j2"]) := by
  decide

/-! ## Claim C6 -/

/-- C6: the claim quantifies the pre-execution stack popping over every
loaded job, but worker.py line 230 guards the popping loop with
job.command == None.  At a job whose command is present and whose top
group's first successor is absent from the store, the cleanup leaves the
stack unchanged instead of popping the group. -/
theorem worker_preclean_gate_counterexample :
    workerPreCleanStack (some "c1") (fun _ => false) [[exE2]] = some [[exE2]] ∧
    ([[exE2]] : List (List SuccessorEntry)) ≠ [] := by
  decide

/-- C6 amended: during the worker's pre-execution cleanup, for every loaded
job whose command is absent (and whose stack groups are non-empty, so that
reading a group's first successor cannot raise): the cleanup pops whole
groups from the top of the stack exactly while the top group's first
successor is absent from the store, and stops at the first top group whose
first successor exists. -/
theorem worker_preclean_amended (ex : SuccessorEntry → Bool)
    (stack : List (List SuccessorEntry)) (h : ∀ g ∈ stack, g ≠ []) :
    ∃ kept popped,
      workerPreCleanStack none ex stack = some kept ∧
      stack = kept ++ popped ∧
      (∀ g ∈ popped, ∀ e, g.head? = some e → ex e = false) ∧
      (∀ g e, kept.getLast? = some g → g.head? = some e → ex e = true) := by
  obtain ⟨pr, kr, h1, h2, h3, h4⟩ :=
    popFinishedRev_spec ex stack.reverse (by
      intro g hg
      exact h g (List.mem_reverse.mp hg))
  refine ⟨kr.reverse, pr.reverse, ?_, ?_, ?_, ?_⟩
  · simp [workerPreCleanStack, h1]
  · have := congrArg List.reverse h2
    simpa using this
  · intro g hg
    exact h3 g (List.mem_reverse.mp hg)
  · intro g e hg he
    exact h4 g e (by simpa using hg) he

/-- C6 witness: the amended theorem applied to a concrete two-group stack
whose top group's first successor is absent and whose lower group's first
successor exists. -/
theorem worker_preclean_amended_witness :
    ∃ kept popped,
      workerPreCleanStack none (fun e => e.jobStoreID = "j2") [[exE2], [exE3]] = some kept ∧
      ([[exE2], [exE3]] : List (List SuccessorEntry)) = kept ++ popped ∧
      (∀ g ∈ popped, ∀ e, g.head? = some e → (e.jobStoreID = "j2" : Bool) = false) ∧
      (∀ g e, kept.getLast? = some g → g.head? = some e → (e.jobStoreID = "j2" : Bool) = true) := by
  exact worker_preclean_amended (fun e => e.jobStoreID = "j2") [[exE2], [exE3]] (by decide)

/-! ## Claim C7 -/

/-- C7: the failure path is claimed to persist the annotated job and exit
with code 0.  Evaluating the modelled teardown at a worker whose payload
raised shows it instead raises AttributeError when persisting, because it
calls the jobStore method named store (worker.py line 421), which
AbstractJobStore does not define (the persist operation is update); the
escaped exception makes the process exit nonzero. -/
theorem worker_failure_store_attribute_error :
    workerFailurePath [exJ1] "j1" [0, 1, 2] "logA" =
      Except.error (PyError.attributeError "store") ∧
    processExitCode (workerFailurePath [exJ1] "j1" [0, 1, 2] "logA") = 1 := by
  exact ⟨rfl, rfl⟩

/-! ## Claim C9 -/

/-- C9: validation is claimed to accept exactly the non-empty strings over
the class a-z A-Z 0-9 dot underscore hyphen.  The string consisting of the
letter a followed by a newline is accepted by the source's anchored regex,
because the dollar anchor also matches just before a string-final newline,
yet the newline is outside the class. -/
theorem shared_name_validation_counterexample :
    validateSharedFileName ['a', '\n'] = true ∧
    ¬(['a', '\n'] ≠ [] ∧ (['a', '\n'].all isSharedFileNameChar) = true) := by
  decide

/-- C9 amended: validation accepts a name exactly when it is a non-empty
run of class characters, or such a run followed by one string-final
newline. -/
theorem shared_name_validation_amended (name : List Char) :
    validateSharedFileName name = true ↔
      (name ≠ [] ∧ name.all isSharedFileNameChar = true) ∨
      (∃ body, name = body ++ ['\n'] ∧ body ≠ [] ∧
        body.all isSharedFileNameChar = true) := by
  induction name using List.reverseRecOn with
  | nil => simp [validateSharedFileName]
  | append_singleton body c _ih =>
    by_cases hc : c = '\n'
    · subst hc
      have hnl : isSharedFileNameChar '\n' = false := by decide
      constructor
      · intro hv
        simp only [validateSharedFileName, List.getLast?_concat, List.dropLast_concat,
          if_pos rfl, Bool.and_eq_true, Bool.not_eq_true'] at hv
        refine Or.inr ⟨body, rfl, ?_, hv.2⟩
        intro hb
        rw [hb] at hv
        simp at hv
      · rintro (⟨_, hall⟩ | ⟨b, hb, hbne, hball⟩)
        · rw [List.all_append] at hall
          simp [hnl] at hall
        · have hbody : b = body := by
            have := List.append_inj_left' hb rfl
            exact this.symm
          subst hbody
          simp only [validateSharedFileName, List.getLast?_concat, List.dropLast_concat,
            if_pos rfl, Bool.and_eq_true, Bool.not_eq_true']
          refine ⟨?_, hball⟩
          simpa [List.isEmpty_iff] using hbne
    · have hgl : (body ++ [c]).getLast? = some c := List.getLast?_concat _
      have hne : ¬((body ++ [c]).getLast? = some '\n') := by
        rw [hgl]
        intro hcontra
        exact hc (Option.some.inj hcontra)
      constructor
      · intro hv
        simp only [validateSharedFileName, if_neg hne, Bool.and_eq_true,
          Bool.not_eq_true'] at hv
        exact Or.inl ⟨by simp, hv.2⟩
      · rintro (⟨_, hall⟩ | ⟨b, hb, _, _⟩)
        · simp only [validateSharedFileName, if_neg hne, Bool.and_eq_true,
            Bool.not_eq_true']
          refine ⟨by simp [List.isEmpty_iff], hall⟩
        · have : c = '\n' := by
            have h1 : (body ++ [c]).getLast? = some '\n' := by
              rw [hb]
              exact List.getLast?_concat _
            rw [hgl] at h1
            exact Option.some.inj h1
          exact absurd this hc

/-! ## Claim C2 -/

/-- C2: the claim says the worker stops chaining and exits the loop when,
among its other conditions, the top group holds 2 or more successors.
Evaluating the post-execution checks at a job whose top group holds two
successors shows the code instead raises there: worker.py line 307 formats
its log message with len(tasks)-1 where the name tasks is bound nowhere in
the file, so a NameError escapes into the worker's failure path before the
break at line 308 runs, rather than a clean exit from the loop.  The
remaining conditions behave as claimed, illustrated alongside: a qualifying
sole successor chains, and an expired wall-time budget breaks cleanly. -/
theorem worker_chain_two_successors_raises :
    chainCheck false exJ2Kids = ChainDecision.raiseNameError ∧
    ChainDecision.raiseNameError ≠ ChainDecision.halt ∧
    chainCheck false exJ1 = ChainDecision.run exE2 ∧
    chainCheck true exJ1 = ChainDecision.halt := by
  decide


/-! ## Claim C3 -/

/-- Membership in the collated jobsToDelete union. -/
theorem mem_collateJobsToDelete (s : StoreJobs String) (x : String) :
    x ∈ collateJobsToDelete s ↔ ∃ j ∈ s, x ∈ j.jobsToDelete := by
  have haux : ∀ (l : List (Job String)) (acc : List String),
      x ∈ l.foldl (fun a j => a ++ j.jobsToDelete) acc ↔
        x ∈ acc ∨ ∃ j ∈ l, x ∈ j.jobsToDelete := by
    intro l
    induction l with
    | nil => simp
    | cons j l' ih =>
      intro acc
      rw [List.foldl_cons, ih]
      simp [List.mem_append, or_assoc]
  rw [collateJobsToDelete, haux]
  simp

/-- Membership after folding conditional deletions over a snapshot. -/
theorem mem_deletionFold (ds : List String) (l : List (Job String)) :
    ∀ (acc : StoreJobs String) (r : Job String),
      r ∈ l.foldl (fun st j => if j.updateID ∈ ds then deleteId st j.jobStoreID else st) acc ↔
        (r ∈ acc ∧ ∀ j ∈ l, j.updateID ∈ ds → j.jobStoreID ≠ r.jobStoreID) := by
  induction l with
  | nil => simp
  | cons j l' ih =>
    intro acc r
    rw [List.foldl_cons, ih]
    by_cases hj : j.updateID ∈ ds
    · rw [if_pos hj]
      simp only [deleteId, List.mem_filter, List.mem_cons, decide_eq_true_eq]
      constructor
      · rintro ⟨⟨hr, hne⟩, hall⟩
        refine ⟨hr, ?_⟩
        rintro j' (rfl | hj') hmem
        · exact fun heq => hne heq.symm
        · exact hall j' hj' hmem
      · rintro ⟨hr, hall⟩
        refine ⟨⟨hr, ?_⟩, ?_⟩
        · intro heq
          exact hall j (Or.inl rfl) hj heq.symm
        · intro j' hj' hmem
          exact hall j' (Or.inr hj') hmem
    · rw [if_neg hj]
      constructor
      · rintro ⟨hr, hall⟩
        refine ⟨hr, ?_⟩
        intro j' hj' hmem
        rcases List.mem_cons.mp hj' with heq | htail
        · rw [heq] at hmem
          exact absurd hmem hj
        · exact hall j' htail hmem
      · rintro ⟨hr, hall⟩
        refine ⟨hr, ?_⟩
        intro j' hj' hmem
        exact hall j' (List.mem_cons_of_mem j hj') hmem

/-- C3: run on a non-empty store whose record IDs are unique (spec
invariant 1), the recovery sweep's deletion phase removes exactly the
records whose updateID lies in the collated union of all jobsToDelete
fields; every other record survives it. -/
theorem clean_deletion_phase_exact (s : StoreJobs String)
    (hids : (s.map Job.jobStoreID).Nodup) (_hne : s ≠ []) (r : Job String) :
    r ∈ deletionPhase s ↔ (r ∈ s ∧ r.updateID ∉ collateJobsToDelete s) := by
  unfold deletionPhase
  by_cases hlen : (collateJobsToDelete s).length > 0
  · rw [if_pos hlen, mem_deletionFold]
    constructor
    · rintro ⟨hr, hall⟩
      exact ⟨hr, fun hmem => (hall r hr hmem) rfl⟩
    · rintro ⟨hr, hnot⟩
      refine ⟨hr, ?_⟩
      intro j hj hmem heq
      have hjr : j = r := List.inj_on_of_nodup_map hids hj hr heq
      rw [hjr] at hmem
      exact hnot hmem
  · rw [if_neg hlen]
    have hnil : collateJobsToDelete s = [] := by
      cases h : collateJobsToDelete s with
      | nil => rfl
      | cons a l =>
        rw [h] at hlen
        simp at hlen
    rw [hnil]
    simp

/-- C3 witness: the deletion-phase theorem applied to a concrete two-record
store in the spawn-protocol crash state: the record holding the intent
survives, the orphan record whose updateID is in the union is deleted. -/
theorem clean_deletion_phase_exact_witness :
    exSA ∈ deletionPhase [exSA, exSB] ∧ exSB ∉ deletionPhase [exSA, exSB] := by
  constructor
  · exact (clean_deletion_phase_exact [exSA, exSB] (by decide) (by decide) exSA).mpr
      (by decide)
  · intro hmem
    have h := (clean_deletion_phase_exact [exSA, exSB] (by decide) (by decide) exSB).mp hmem
    revert h
    decide

/-! ## Claim C4 -/

/-- Stack-fixing loop, pop case: a top group that filters to nothing is
popped and the loop continues below it. -/
theorem fixStack_append_empty (ex : String → Bool) (st : List (List String))
    (g : List String) (h : g.filter ex = []) :
    fixStack ex (st ++ [g]) = fixStack ex st := by
  simp only [fixStack]
  rw [show (st ++ [g]).reverse = g :: st.reverse by simp]
  have h1 : fixStackRev ex (g :: st.reverse) = fixStackRev ex st.reverse := by
    simp [fixStackRev, h]
  rw [h1]

/-- Stack-fixing loop, shrink case: a top group that filters to a non-empty
strict subset is replaced by the filtered group, flagging a change, and the
loop stops. -/
theorem fixStack_append_shrink (ex : String → Bool) (st : List (List String))
    (g : List String) (hne : g.filter ex ≠ []) (hlt : (g.filter ex).length < g.length) :
    fixStack ex (st ++ [g]) = (st ++ [g.filter ex], true) := by
  simp only [fixStack]
  rw [show (st ++ [g]).reverse = g :: st.reverse by simp]
  have hpos : (g.filter ex).length > 0 := List.length_pos.mpr hne
  have h1 : fixStackRev ex (g :: st.reverse) = (g.filter ex :: st.reverse, true) := by
    simp only [fixStackRev]
    rw [if_pos hpos, if_pos hlt]
  rw [h1]
  simp

/-- Stack-fixing loop, stop case: a top group whose members all exist is
left in place without flagging a change, and the loop stops. -/
theorem fixStack_append_full (ex : String → Bool) (st : List (List String))
    (g : List String) (hne : g ≠ []) (heq : g.filter ex = g) :
    fixStack ex (st ++ [g]) = (st ++ [g], false) := by
  simp only [fixStack]
  rw [show (st ++ [g]).reverse = g :: st.reverse by simp]
  have hpos : (g.filter ex).length > 0 := by
    rw [heq]
    exact List.length_pos.mpr hne
  have hnlt : ¬((g.filter ex).length < g.length) := by
    rw [heq]
    exact Nat.lt_irrefl _
  have h1 : fixStackRev ex (g :: st.reverse) = (g :: st.reverse, false) := by
    simp only [fixStackRev]
    rw [if_pos hpos, if_neg hnlt]
  rw [h1]
  simp

/-- C4: for a record surviving the deletion phase, the sweep's stack loop
pops a top group whose filtered set is empty and repeats, replaces a top
group by its filtered set and stops when the set shrank but is non-empty,
and stops without flagging a change when the top group is intact; when the
top group holds three successor IDs of which exactly one survives
filtering, the result's top group is the singleton of that ID; and on the
concrete two-record store of spec scenario 5 the sweep performs no
deletions and exactly one update, leaving the record's top group as the
singleton of the surviving ID. -/
theorem clean_stack_fix_spec :
    (∀ (ex : String → Bool) (st : List (List String)) (g : List String),
        g.filter ex = [] → fixStack ex (st ++ [g]) = fixStack ex st) ∧
    (∀ (ex : String → Bool) (st : List (List String)) (g : List String),
        g.filter ex ≠ [] → (g.filter ex).length < g.length →
        fixStack ex (st ++ [g]) = (st ++ [g.filter ex], true)) ∧
    (∀ (ex : String → Bool) (st : List (List String)) (g : List String),
        g ≠ [] → g.filter ex = g →
        fixStack ex (st ++ [g]) = (st ++ [g], false)) ∧
    (∀ (ex : String → Bool) (rest : List (List String)) (id1 id2 id3 : String),
        (([id1, id2, id3] : List String).filter ex).length = 1 →
        ∃ x, [id1, id2, id3].filter ex = [x] ∧ x ∈ [id1, id2, id3] ∧ ex x = true ∧
          fixStack ex (rest ++ [[id1, id2, id3]]) = (rest ++ [[x]], true)) ∧
    clean [exR, exW] = ([{ exR with stack := [["id1"]] }, exW], 0, 1) := by
  refine ⟨fixStack_append_empty, fixStack_append_shrink, fixStack_append_full, ?_, ?_⟩
  · intro ex rest id1 id2 id3 hlen1
    cases hf : ([id1, id2, id3] : List String).filter ex with
    | nil =>
      rw [hf] at hlen1
      simp at hlen1
    | cons x xs =>
      have hxs : xs = [] := by
        rw [hf] at hlen1
        simpa using hlen1
      subst hxs
      have hxmem : x ∈ ([id1, id2, id3] : List String).filter ex := by
        rw [hf]
        simp
      rw [List.mem_filter] at hxmem
      refine ⟨x, rfl, hxmem.1, hxmem.2, ?_⟩
      have := fixStack_append_shrink ex rest [id1, id2, id3]
        (by rw [hf]; simp)
        (by rw [hf]; simp only [List.length_cons, List.length_nil]; omega)
      rw [hf] at this
      exact this
  · decide

/-- C4 witness: the singleton-survivor part applied at a concrete filter,
concluding the concrete replacement of the top group. -/
theorem clean_stack_fix_spec_witness :
    fixStack (fun i => i == "id1") ([] ++ [["id1", "id2", "id3"]]) = ([] ++ [["id1"]], true) := by
  obtain ⟨x, hx, _hmem, _hex, hfix⟩ :=
    clean_stack_fix_spec.2.2.2.1 (fun i => i == "id1") [] "id1" "id2" "id3" (by decide)
  have hfilt : (["id1", "id2", "id3"] : List String).filter (fun i => i == "id1") = ["id1"] := by
    decide
  rw [hfilt] at hx
  have hxeq : x = "id1" := by
    injection hx with h1 _
    exact h1.symm
  rw [hxeq] at hfix
  exact hfix

/-! ## Claim C8 -/

/-- Deleting an ID leaves no record with that ID. -/
theorem existsIn_deleteId_self {α : Type} (s : StoreJobs α) (i : String) :
    existsIn (deleteId s i) i = false := by
  unfold existsIn deleteId
  rw [List.any_eq_false]
  intro j hj
  rw [List.mem_filter] at hj
  simp only [decide_eq_true_eq] at hj ⊢
  exact hj.2

/-- C8: on a normal worker exit whose job ends with an absent command and an
empty stack, the completion step deletes the job from the store, so the job
is no longer persisted; and one worker invocation over the concrete
three-job chain of equal resources, singleton groups and predecessorNumber
one leaves none of the three jobs persisted. -/
theorem worker_complete_deletes_chain :
    (∀ ws : WorkerState, ws.job.command = none → ws.job.stack = [] →
      workerFinish ws = deleteId ws.store ws.job.jobStoreID ∧
      existsIn (workerFinish ws) ws.job.jobStoreID = false) ∧
    (∃ s', workerMain consumeCommand (fun _ => false) 4 [exJ1, exJ2, exJ3] "j1" = some s' ∧
      existsIn s' "j1" = false ∧ existsIn s' "j2" = false ∧ existsIn s' "j3" = false) := by
  constructor
  · intro ws h1 h2
    have hfin : workerFinish ws = deleteId ws.store ws.job.jobStoreID := by
      unfold workerFinish
      rw [if_pos ⟨h1, h2⟩]
    refine ⟨hfin, ?_⟩
    rw [hfin]
    exact existsIn_deleteId_self ws.store ws.job.jobStoreID
  · exact ⟨[], rfl, rfl, rfl, rfl⟩

/-- C8 witness: the completion step applied to a concrete finished job. -/
theorem worker_complete_deletes_chain_witness :
    workerFinish ⟨{ exJ3 with command := none, stack := [] }, [exJ3], none⟩ =
      deleteId [exJ3] "j3" ∧
    existsIn (workerFinish ⟨{ exJ3 with command := none, stack := [] }, [exJ3], none⟩)
      "j3" = false := by
  exact worker_complete_deletes_chain.1
    ⟨{ exJ3 with command := none, stack := [] }, [exJ3], none⟩ rfl rfl

/-! ## Claim C5 -/

/-- A cleaned record carries no delete intents. -/
theorem cleanJob_fst_jobsToDelete (ex : String → Bool) (j : Job String) :
    (cleanJob ex j).1.jobsToDelete = [] := by
  cases hj : j.jobsToDelete <;> cases hl : j.logJobStoreFileID <;>
    simp [cleanJob, hj, hl]

/-- A cleaned record carries no log-file reference. -/
theorem cleanJob_fst_log (ex : String → Bool) (j : Job String) :
    (cleanJob ex j).1.logJobStoreFileID = none := by
  cases hj : j.jobsToDelete <;> cases hl : j.logJobStoreFileID <;>
    simp [cleanJob, hj, hl]

/-- Cleaning never changes the record's ID. -/
theorem cleanJob_fst_id (ex : String → Bool) (j : Job String) :
    (cleanJob ex j).1.jobStoreID = j.jobStoreID := by
  cases hj : j.jobsToDelete <;> cases hl : j.logJobStoreFileID <;>
    simp [cleanJob, hj, hl]

/-- The cleaned record's stack is the stack-loop result. -/
theorem cleanJob_fst_stack (ex : String → Bool) (j : Job String) :
    (cleanJob ex j).1.stack = (fixStack ex j.stack).1 := by
  cases hj : j.jobsToDelete <;> cases hl : j.logJobStoreFileID <;>
    simp [cleanJob, hj, hl]

/-- The change flag is unset exactly when nothing flaggable happened. -/
theorem cleanJob_flag_false_iff (ex : String → Bool) (j : Job String) :
    (cleanJob ex j).2 = false ↔
      (j.jobsToDelete = [] ∧ (fixStack ex j.stack).2 = false ∧
        j.logJobStoreFileID = none) := by
  cases hj : j.jobsToDelete <;> cases hl : j.logJobStoreFileID <;>
    simp [cleanJob, hj, hl]

/-- Filtering is idempotent. -/
theorem filter_self_filter {α : Type} (p : α → Bool) (l : List α) :
    (l.filter p).filter p = l.filter p := by
  rw [List.filter_filter]
  apply List.filter_congr
  intro a _
  cases p a <;> simp

/-- Re-running the stack-fixing loop on a loop result never flags a change
(over the reversed stack). -/
theorem fixStackRev_twice_flag (ex : String → Bool) :
    ∀ l : List (List String), (fixStackRev ex (fixStackRev ex l).1).2 = false := by
  intro l
  induction l with
  | nil => simp [fixStackRev]
  | cons g rest ih =>
    by_cases hpos : (g.filter ex).length > 0
    · by_cases hlt : (g.filter ex).length < g.length
      · have h1 : fixStackRev ex (g :: rest) = (g.filter ex :: rest, true) := by
          simp only [fixStackRev]
          rw [if_pos hpos, if_pos hlt]
        rw [h1]
        have hfi : (g.filter ex).filter ex = g.filter ex := filter_self_filter ex g
        have h2 : fixStackRev ex (g.filter ex :: rest) = (g.filter ex :: rest, false) := by
          simp only [fixStackRev]
          rw [hfi, if_pos hpos, if_neg (Nat.lt_irrefl _)]
        rw [h2]
      · have h1 : fixStackRev ex (g :: rest) = (g :: rest, false) := by
          simp only [fixStackRev]
          rw [if_pos hpos, if_neg hlt]
        rw [h1, h1]
    · have h1 : fixStackRev ex (g :: rest) = fixStackRev ex rest := by
        simp only [fixStackRev]
        rw [if_neg hpos]
      rw [h1]
      exact ih

/-- Re-running the stack-fixing loop on a loop result never flags a
change. -/
theorem fixStack_twice_flag (ex : String → Bool) (st : List (List String)) :
    (fixStack ex (fixStack ex st).1).2 = false := by
  simp only [fixStack]
  rw [List.reverse_reverse]
  exact fixStackRev_twice_flag ex st.reverse

/-- Re-cleaning a cleaned record never flags a change. -/
theorem cleanJob_twice_flag (ex : String → Bool) (j : Job String) :
    (cleanJob ex (cleanJob ex j).1).2 = false := by
  rw [cleanJob_flag_false_iff]
  refine ⟨cleanJob_fst_jobsToDelete ex j, ?_, cleanJob_fst_log ex j⟩
  rw [cleanJob_fst_stack]
  exact fixStack_twice_flag ex j.stack

/-- The cleanup phase preserves the set of persisted IDs. -/
theorem cleanupPhase_map_id (s : StoreJobs String) :
    (cleanupPhase s).map Job.jobStoreID = s.map Job.jobStoreID := by
  unfold cleanupPhase
  rw [List.map_map]
  apply List.map_congr_left
  intro j _
  simp only [Function.comp]
  by_cases h : (cleanJob (existsIn s) j).2 = true
  · rw [if_pos h]
    exact cleanJob_fst_id (existsIn s) j
  · rw [if_neg h]

/-- Existence is a function of the persisted IDs alone. -/
theorem existsIn_eq_map_any {γ : Type} (l : StoreJobs γ) (i : String) :
    existsIn l i = (l.map Job.jobStoreID).any (fun n => n = i) := by
  unfold existsIn
  induction l with
  | nil => rfl
  | cons j t ih =>
    rw [List.map_cons, List.any_cons, List.any_cons, ih]

/-- Existence queries agree on stores with the same persisted IDs. -/
theorem existsIn_congr {α β : Type} (s : StoreJobs α) (s' : StoreJobs β)
    (h : s.map Job.jobStoreID = s'.map Job.jobStoreID) :
    existsIn s = existsIn s' := by
  funext i
  rw [existsIn_eq_map_any, existsIn_eq_map_any, h]

/-- Every record stored by the cleanup phase carries no delete intents. -/
theorem cleanupPhase_jobsToDelete (s : StoreJobs String) (j : Job String)
    (hj : j ∈ cleanupPhase s) : j.jobsToDelete = [] := by
  unfold cleanupPhase at hj
  rw [List.mem_map] at hj
  obtain ⟨r, _, hr⟩ := hj
  by_cases hflag : (cleanJob (existsIn s) r).2 = true
  · rw [if_pos hflag] at hr
    rw [← hr]
    exact cleanJob_fst_jobsToDelete (existsIn s) r
  · rw [if_neg hflag] at hr
    rw [← hr]
    have := (cleanJob_flag_false_iff (existsIn s) r).mp (Bool.not_eq_true _ ▸ hflag)
    exact this.1

/-- Collating a store whose records all carry empty jobsToDelete yields the
empty union. -/
theorem collate_nil_of_all_nil (s : StoreJobs String)
    (h : ∀ j ∈ s, j.jobsToDelete = []) : collateJobsToDelete s = [] := by
  rw [List.eq_nil_iff_forall_not_mem]
  intro x hx
  rw [mem_collateJobsToDelete] at hx
  obtain ⟨j, hj, hxj⟩ := hx
  rw [h j hj] at hxj
  exact absurd hxj (List.not_mem_nil x)

/-- Re-running the cleanup phase on its own output flags no record. -/
theorem cleanupPhase_twice_flag (s : StoreJobs String) (j : Job String)
    (hj : j ∈ cleanupPhase s) :
    (cleanJob (existsIn (cleanupPhase s)) j).2 = false := by
  have hex : existsIn (cleanupPhase s) = existsIn s :=
    existsIn_congr (cleanupPhase s) s (cleanupPhase_map_id s)
  rw [hex]
  unfold cleanupPhase at hj
  rw [List.mem_map] at hj
  obtain ⟨r, _, hr⟩ := hj
  by_cases hflag : (cleanJob (existsIn s) r).2 = true
  · rw [if_pos hflag] at hr
    rw [← hr]
    exact cleanJob_twice_flag (existsIn s) r
  · rw [if_neg hflag] at hr
    rw [← hr]
    exact Bool.not_eq_true _ ▸ hflag

/-- C5: the recovery sweep reaches a fixed point in one run: running _clean
on the result of _clean returns the same store and performs zero deletions
and zero updates. -/
theorem clean_idempotent (s : StoreJobs String) :
    clean (clean s).1 = ((clean s).1, 0, 0) := by
  by_cases hs : started s = true
  · have hcs : (clean s).1 = cleanupPhase (deletionPhase s) := by
      unfold clean
      rw [if_pos hs]
    rw [hcs]
    set s1 := cleanupPhase (deletionPhase s) with hs1def
    by_cases hs1 : started s1 = true
    · have hallnil : ∀ j ∈ s1, j.jobsToDelete = [] := by
        intro j hj
        exact cleanupPhase_jobsToDelete (deletionPhase s) j hj
      have hcoll : collateJobsToDelete s1 = [] := collate_nil_of_all_nil s1 hallnil
      have hdel : deletionPhase s1 = s1 := by
        unfold deletionPhase
        rw [hcoll]
        simp
      have hdelcount : deletionPhaseDeletes s1 = 0 := by
        unfold deletionPhaseDeletes
        rw [hcoll]
        simp
      have hflags : ∀ j ∈ s1, (cleanJob (existsIn s1) j).2 = false := by
        intro j hj
        exact cleanupPhase_twice_flag (deletionPhase s) j hj
      have hfix : cleanupPhase s1 = s1 := by
        unfold cleanupPhase
        have : ∀ j ∈ s1, (if (cleanJob (existsIn s1) j).2 then (cleanJob (existsIn s1) j).1 else j) = j := by
          intro j hj
          rw [hflags j hj]
          simp
        calc s1.map (fun j =>
              let p := cleanJob (existsIn s1) j
              if p.2 then p.1 else j)
            = s1.map (fun j => j) := List.map_congr_left this
          _ = s1 := List.map_id' s1
      have hupd : cleanupPhaseUpdates s1 = 0 := by
        unfold cleanupPhaseUpdates
        rw [List.length_eq_zero, List.filter_eq_nil_iff]
        intro j hj
        rw [hflags j hj]
        simp
      unfold clean
      rw [if_pos hs1, hdel, hdelcount]
      show (cleanupPhase s1, (0 : Nat), cleanupPhaseUpdates s1) = (s1, 0, 0)
      rw [hfix, hupd]
    · unfold clean
      rw [if_neg hs1]
  · have hcs : clean s = (s, 0, 0) := by
      unfold clean
      rw [if_neg hs]
    rw [hcs]
    exact hcs

/-! ## Claim C10 -/

/-- Serialized markup of an element holds at least its two own tags. -/
theorem serializeXml_length_ge (e : XmlElement) : 2 ≤ (serializeXml e).length := by
  cases e with
  | node t a cs =>
    simp only [serializeXml, List.length_cons, List.length_append, List.length_nil]
    omega

/-- Markup length of a node. -/
theorem serializeXml_node_length (t : String) (a : List (String × String))
    (cs : List XmlElement) :
    (serializeXml (XmlElement.node t a cs)).length = (serializeXmlList cs).length + 2 := by
  simp only [serializeXml, List.length_cons, List.length_append, List.length_nil]

/-- Markup length of a sibling sequence. -/
theorem serializeXmlList_cons_length (e : XmlElement) (es : List XmlElement) :
    (serializeXmlList (e :: es)).length = (serializeXml e).length + (serializeXmlList es).length := by
  simp [serializeXmlList]

/-- One parser step on an element. -/
theorem parseXml_succ_start (f : Nat) (t : String) (a : List (String × String))
    (tl : List XmlToken) :
    parseXml (f + 1) (XmlToken.startTag t a :: tl) =
      match parseXmlList f tl with
      | some (cs, XmlToken.endTag :: rest2) => some (XmlElement.node t a cs, rest2)
      | _ => none := by
  rfl

/-- One parser step on a sibling sequence opening with a start tag. -/
theorem parseXmlList_succ_start (f : Nat) (t : String) (a : List (String × String))
    (tl : List XmlToken) :
    parseXmlList (f + 1) (XmlToken.startTag t a :: tl) =
      match parseXml f (XmlToken.startTag t a :: tl) with
      | none => none
      | some (e, rest) =>
        match parseXmlList f rest with
        | none => none
        | some (es, rest2) => some (e :: es, rest2) := by
  rfl

/-- Parsing is a left inverse of serialization, given enough fuel: an
element's markup followed by any remainder parses back to the element, and
a sibling sequence's markup parses back to the sequence when the remainder
does not open a further sibling. -/
theorem parse_serialize (fuel : Nat) :
    (∀ (e : XmlElement) (rest : List XmlToken), (serializeXml e).length ≤ fuel →
        parseXml fuel (serializeXml e ++ rest) = some (e, rest)) ∧
    (∀ (cs : List XmlElement) (rest : List XmlToken),
        (serializeXmlList cs).length + 1 ≤ fuel →
        (∀ t a, rest.head? ≠ some (XmlToken.startTag t a)) →
        parseXmlList fuel (serializeXmlList cs ++ rest) = some (cs, rest)) := by
  induction fuel using Nat.strong_induction_on with
  | _ fuel ih =>
    constructor
    · intro e rest hlen
      cases e with
      | node t a cs =>
        cases fuel with
        | zero =>
          have h2 := serializeXml_length_ge (XmlElement.node t a cs)
          omega
        | succ f =>
          have hser : serializeXml (XmlElement.node t a cs) ++ rest =
              XmlToken.startTag t a :: (serializeXmlList cs ++ (XmlToken.endTag :: rest)) := by
            simp [serializeXml]
          have hlen2 : (serializeXmlList cs).length + 1 ≤ f := by
            have := serializeXml_node_length t a cs
            omega
          have hlist := (ih f (Nat.lt_succ_self f)).2 cs (XmlToken.endTag :: rest)
            (by omega) (by intro t' a'; simp)
          rw [hser, parseXml_succ_start, hlist]
    · intro cs rest hlen hrest
      cases fuel with
      | zero => omega
      | succ f =>
        cases cs with
        | nil =>
          simp only [serializeXmlList, List.nil_append]
          cases rest with
          | nil => rfl
          | cons tk rest' =>
            cases tk with
            | startTag t a => exact absurd rfl (hrest t a)
            | endTag => rfl
        | cons e es =>
          cases e with
          | node t a cs' =>
            have hle : 2 ≤ (serializeXml (XmlElement.node t a cs')).length :=
              serializeXml_length_ge _
            have hlen3 : (serializeXmlList (XmlElement.node t a cs' :: es)).length =
                (serializeXml (XmlElement.node t a cs')).length + (serializeXmlList es).length :=
              serializeXmlList_cons_length _ _
            have h1 := (ih f (Nat.lt_succ_self f)).1 (XmlElement.node t a cs')
              (serializeXmlList es ++ rest) (by omega)
            have h2 := (ih f (Nat.lt_succ_self f)).2 es rest (by omega) hrest
            have hshape : serializeXmlList (XmlElement.node t a cs' :: es) ++ rest =
                serializeXml (XmlElement.node t a cs') ++ (serializeXmlList es ++ rest) := by
              simp [serializeXmlList]
            have hcons : serializeXml (XmlElement.node t a cs') ++ (serializeXmlList es ++ rest) =
                XmlToken.startTag t a ::
                  ((serializeXmlList cs' ++ [XmlToken.endTag]) ++ (serializeXmlList es ++ rest)) := by
              simp [serializeXml]
            rw [hshape, hcons, parseXmlList_succ_start, ← hcons]
            simp only [h1, h2]

/-- Reading a shared file back right after writing it yields the written
content. -/
theorem lookupShared_writeShared (b : BackingStore) (name : String)
    (content : List XmlToken) :
    lookupShared (writeShared b name content) name = some content := by
  unfold lookupShared writeShared
  rw [List.find?_cons_of_pos _ (by simp)]
  rfl

/-- The recovery sweep leaves shared files untouched. -/
theorem lookupShared_cleanBacking (b : BackingStore) (name : String) :
    lookupShared (cleanBacking b) name = lookupShared b name := rfl

/-- C10: constructing a store with a configuration element writes its
markup to the shared file config.xml and only then runs the recovery sweep
(which leaves shared files untouched, so the handle's backing still holds
the markup), the handle's config property exposes that element; and any
store instance later constructed with no configuration on a backing store
whose config.xml holds that markup parses it back and exposes an equal
element. -/
theorem config_roundtrip (b : BackingStore) (c : XmlElement) (h : StoreHandle)
    (hinit : initJobStore b (some c) = some h) :
    (h.backing = cleanBacking (writeShared b "config.xml" (serializeXml c)) ∧
     lookupShared h.backing "config.xml" = some (serializeXml c) ∧
     h.config = c) ∧
    (∀ b2 : BackingStore, lookupShared b2 "config.xml" = some (serializeXml c) →
      ∃ h2, initJobStore b2 none = some h2 ∧ h2.config = c) := by
  constructor
  · have hh : h = StoreHandle.mk (cleanBacking (writeShared b "config.xml" (serializeXml c))) c := by
      have hinit2 : initJobStore b (some c) =
          some (StoreHandle.mk (cleanBacking (writeShared b "config.xml" (serializeXml c))) c) := rfl
      rw [hinit2] at hinit
      exact (Option.some.inj hinit).symm
    subst hh
    refine ⟨rfl, ?_, rfl⟩
    rw [lookupShared_cleanBacking, lookupShared_writeShared]
  · intro b2 hlook
    have hp : parseXml ((serializeXml c).length + 1) (serializeXml c) = some (c, []) := by
      have hps := (parse_serialize ((serializeXml c).length + 1)).1 c [] (by omega)
      rw [List.append_nil] at hps
      exact hps
    unfold initJobStore
    rw [hlook]
    simp only [hp]
    exact ⟨_, rfl, rfl⟩

/-- C10 witness: the round trip applied to a concrete configuration element
and a concrete backing store holding its markup. -/
theorem config_roundtrip_witness :
    ∃ h2, initJobStore ⟨[("config.xml", serializeXml cfgExample)], []⟩ none = some h2 ∧
      h2.config = cfgExample := by
  exact (config_roundtrip ⟨[], []⟩ cfgExample
      { backing := cleanBacking (writeShared ⟨[], []⟩ "config.xml" (serializeXml cfgExample)),
        config := cfgExample } rfl).2
    ⟨[("config.xml", serializeXml cfgExample)], []⟩ rfl

end JobTree
